import Mathlib

/-!
# A verification model of the fake-s3 in-memory object store

This file is a shallow embedding, in Lean 4, of the core of `fake-s3`
(`src/index.js`): the bucket namespace, the object store, the upload
handler, the ListObjectsV2 listing engine (sort, prefix filter, delimiter
grouping, start-after, pagination with continuation tokens) and the
non-HTTP helpers `getFiles` / `waitForFiles`.

Modelling conventions:
* JavaScript `Map` values are modelled as association lists
  (`List (String × β)`) with `Map.get` / `Map.set` / `Map.delete`
  translated to `mapGet` / `mapSet` / `mapDelete`.  A JS `Map` never
  holds a duplicate key, and `mapSet` never creates one.
* JS strings are modelled as Lean `String`s; the JS relational
  comparison on strings is modelled by Lean's lexicographic order.
* Machine clock (`new Date().toISOString()`) and the md5 digest are
  modelled as explicit parameters (`now`, `hash`) of the upload handler;
  the random `cuuid()` continuation-token generator is modelled as an
  explicit `freshTok` parameter of the listing engine.
* Fallible handlers return `Except S3Err α`; since the JS handlers throw
  in the middle of imperative code, each handler also returns the state
  as it stood when the result (value or throw) escaped, so that claims
  about "no mutation before validation" are faithful.
* The `waitForFiles` polling loop's wall-clock deadline is modelled as
  poll fuel (one unit per 100ms iteration of the source loop).
-/

namespace FakeS3Spec

/-! ## JS primitives -/

/-- Model of JS `Map.get`: first binding of the key, if any. -/
def mapGet {β : Type} (m : List (String × β)) (k : String) : Option β :=
  match m with
  | [] => none
  | (k', v) :: rest => if k' = k then some v else mapGet rest k

/-- Model of JS `Map.set`: replace the binding in place if the key is present,
otherwise append a new binding (JS `Map` insertion order). -/
def mapSet {β : Type} (m : List (String × β)) (k : String) (v : β) :
    List (String × β) :=
  match m with
  | [] => [(k, v)]
  | (k', v') :: rest =>
    if k' = k then (k, v) :: rest else (k', v') :: mapSet rest k v

/-- Model of JS `Map.delete`: remove the key's binding(s).  A JS `Map` holds at most
one binding per key, so removing every binding agrees with JS on every
representable map. -/
def mapDelete {β : Type} (m : List (String × β)) (k : String) :
    List (String × β) :=
  match m with
  | [] => []
  | (k', v') :: rest =>
    if k' = k then mapDelete rest k else (k', v') :: mapDelete rest k

/-- JS truthiness of a possibly-absent string (`undefined` and `""` are
falsy): returns the string exactly when it is present and nonempty. -/
def strTruthy (s : Option String) : Option String :=
  match s with
  | some v => if v = "" then none else some v
  | none => none

/-- Value of a digit list, most significant first. -/
def digitsVal (cs : List Char) : Nat :=
  cs.foldl (fun acc c => acc * 10 + (c.toNat - 48)) 0

/-- Model of JS `parseInt(s, 10)`: skip leading spaces, one optional
sign, then the leading run of decimal digits; `none` models `NaN`. -/
def jsParseInt (s : String) : Option Int :=
  let cs := s.data.dropWhile (fun c => c = ' ')
  let signAndRest : Bool × List Char :=
    match cs with
    | '-' :: rest => (true, rest)
    | '+' :: rest => (false, rest)
    | _ => (false, cs)
  let ds := signAndRest.2.takeWhile Char.isDigit
  if ds.isEmpty then none
  else if signAndRest.1 then some (-(digitsVal ds : Int))
  else some (digitsVal ds : Int)

/-- Clamping of one endpoint for JS `Array.prototype.slice`: a negative
index counts from the end of the array, and indices are clamped into
`[0, n]`. -/
def jsSliceIdx (n : Nat) (i : Int) : Nat :=
  if i < 0 then ((n : Int) + i).toNat else min i.toNat n

/-- Model of JS `arr.slice(b, e)`. -/
def jsSlice {α : Type} (l : List α) (b e : Int) : List α :=
  (l.take (jsSliceIdx l.length e)).drop (jsSliceIdx l.length b)

/-- Model of JS `arr.findIndex(p)`. -/
def jsFindIndex {α : Type} (p : α → Bool) : List α → Option Nat
  | [] => none
  | x :: xs => if p x then some 0 else (jsFindIndex p xs).map (· + 1)

/-- Predicate `startsWithChars s p`: `p` is a leading segment of `s` (character
by character).  Lean's `String.startsWith` is byte-position based and
does not evaluate inside the kernel, so the JS `startsWith` is modelled
on the character lists directly. -/
def startsWithChars : List Char → List Char → Bool
  | _, [] => true
  | [], _ :: _ => false
  | c :: cs, d :: ds => c = d && startsWithChars cs ds

/-- Model of JS `s.startsWith(p)`. -/
def strStartsWith (s p : String) : Bool :=
  startsWithChars s.data p.data

/-- Model of JS `s.slice(n)` (drop the first `n` characters). -/
def strDrop (s : String) (n : Nat) : String :=
  ⟨s.data.drop n⟩

/-- Model of JS `s.length`. -/
def strLen (s : String) : Nat :=
  s.data.length

/-- Model of JS `parts.join(sep)`. -/
def strJoin (sep : String) (xs : List String) : String :=
  ⟨List.intercalate sep.data (xs.map String.data)⟩

/-- Fuel-based splitter behind `jsSplit` (`fuel` bounds the characters
still to be examined; callers pass enough fuel for the whole string,
and the fallback arm is unreachable then).  The separator is assumed
nonempty. -/
def jsSplitGo (sep : List Char) : Nat → List Char → List Char → List (List Char)
  | 0, acc, cs => [acc.reverse ++ cs]
  | fuel + 1, acc, cs =>
    if startsWithChars cs sep then
      acc.reverse :: jsSplitGo sep fuel [] (cs.drop sep.length)
    else
      match cs with
      | [] => [acc.reverse]
      | c :: rest => jsSplitGo sep fuel (c :: acc) rest

/-- Model of JS `s.split(sep)`: leftmost, non-overlapping separator
matches; an empty separator splits into single characters. -/
def jsSplit (s sep : String) : List String :=
  if sep.data = [] then s.data.map (fun c => String.mk [c])
  else (jsSplitGo sep.data (s.data.length + 1) [] s.data).map String.mk

/-! ## Data model (`src/index.js` classes) -/

/-- Model of `class S3Object` (src/index.js:68): one stored object. -/
structure S3Object where
  bucket : String
  key : String
  content : String
  lastModified : String
  md5 : String
  contentLength : Nat
deriving DecidableEq, Repr

/-- An element of the listing sequence: either a stored object or a
`CommonPrefix` entry (`class CommonPrefix`, src/index.js:96). -/
inductive Entry where
  | obj (o : S3Object)
  | cpfx (p : String)
deriving DecidableEq, Repr

/-- Model of `S3BucketOwner` (src/index.js:27). -/
structure S3BucketOwner where
  displayName : String
  id : String
deriving DecidableEq, Repr

/-- Model of `TokenInfo` (src/index.js:182): what a continuation token resolves
to.  The offset is an `Int` because the source stores `offset + maxKeys`
where `maxKeys` came from `parseInt` and may be negative. -/
structure TokenInfo where
  offset : Int
  startAfter : Option String
deriving DecidableEq, Repr

/-- The mutable state of a `FakeS3` instance (src/index.js:130):
profiles (accessKeyId → bucket name → bucket), bucket owner info,
the continuation-token table, and the configured key prefix used by the
non-HTTP helpers. -/
structure FakeS3 where
  profiles : List (String × List (String × List S3Object))
  bucketOwnerInfo : List (String × S3BucketOwner)
  tokens : List (String × TokenInfo)
  pfx : String
deriving DecidableEq, Repr

/-- XML-level error object (message, optional code, optional resource),
as produced by `throw new Error(...)` / `NoSuchBucketError`. -/
structure S3Err where
  message : String
  code : Option String
  resource : Option String
deriving DecidableEq, Repr

/-! ## Object store operations -/

/-- Model of `S3Bucket#addObject` (src/index.js:118): `Map.set(obj.key, obj)` —
overwrite in place by key, or append. -/
def addObject (bkt : List S3Object) (obj : S3Object) : List S3Object :=
  match bkt with
  | [] => [obj]
  | o :: rest => if o.key = obj.key then obj :: rest else o :: addObject rest obj

/-- Model of `FakeS3#populateBuckets` (src/index.js:370): ensure the profile's
bucket map exists, then for each listed name install a **fresh empty**
bucket and record the owner info (last write wins per name). -/
def populateBuckets (st : FakeS3) (accessKeyId : String)
    (owner : S3BucketOwner) (names : List String) : FakeS3 :=
  let bucketsMap := (mapGet st.profiles accessKeyId).getD []
  let bucketsMap := names.foldl (fun m n => mapSet m n ([] : List S3Object)) bucketsMap
  let ownerInfo := names.foldl (fun m n => mapSet m n owner) st.bucketOwnerInfo
  { st with
      profiles := mapSet st.profiles accessKeyId bucketsMap
      bucketOwnerInfo := ownerInfo }

/-- Model of `FakeS3#_findBucket` (src/index.js:412): scan all profiles in
insertion order, return the first bucket with the given name. -/
def findBucket (st : FakeS3) (bucketName : String) : Option (List S3Object) :=
  st.profiles.findSome? (fun p => mapGet p.2 bucketName)

/-- Model of `FakeS3#getFiles` (src/index.js:424): objects of the first matching
bucket whose key starts with the configured prefix; an unknown bucket
name yields the empty list, not an error. -/
def getFiles (st : FakeS3) (bucket : String) : List S3Object :=
  match findBucket st bucket with
  | none => []
  | some b => b.filter (fun o => strStartsWith o.key st.pfx)

/-- Model of `FakeS3#waitForFiles` (src/index.js:445): poll `getFiles` until its
length equals `count`; the wall-clock deadline is modelled as poll fuel,
and exhausting it returns the `null` sentinel (`none`). -/
def waitForFiles (st : FakeS3) (bucket : String) (count : Nat) :
    Nat → Option (List S3Object)
  | 0 => none
  | fuel + 1 =>
    let info := getFiles st bucket
    if info.length = count then some info else waitForFiles st bucket count fuel

/-! ## Upload handler -/

/-- A parsed PUT request: URL path, the `x-amz-copy-source` header, the
`uploadId` query value, and the body bytes. -/
structure PutRequest where
  path : String
  copySource : Option String
  uploadId : Option String
  body : String
deriving DecidableEq, Repr

/-- Model of `FakeS3#_handlePutObject` (src/index.js:489).  `hash` models the
md5 hex digest and `now` models `new Date().toISOString()`.  The
returned state is the state at the moment the handler returned or
threw, so failed validation provably leaves the state untouched. -/
def handlePutObject (hash : String → String) (now : String)
    (st : FakeS3) (req : PutRequest) : Except S3Err S3Object × FakeS3 :=
  let parts := jsSplit req.path "/"
  if parts.length < 3 ∨ parts.head? ≠ some "" then
    (.error ⟨"invalid url, expected /:bucket/:key", none, none⟩, st)
  else
    let bucket := parts.getD 1 ""
    let key := strJoin "/" (parts.drop 2)
    if (strTruthy req.copySource).isSome then
      (.error ⟨"copyObject() not supported", none, none⟩, st)
    else if (strTruthy req.uploadId).isSome then
      (.error ⟨"putObjectMultipart not supported", none, none⟩, st)
    else
      match mapGet st.profiles "default" with
      | none =>
        (.error ⟨"The specified bucket does not exist", some "NoSuchBucket",
                 some bucket⟩, st)
      | some bucketsMap =>
        match mapGet bucketsMap bucket with
        | none =>
          (.error ⟨"The specified bucket does not exist", some "NoSuchBucket",
                   some bucket⟩, st)
        | some s3bucket =>
          let obj : S3Object :=
            ⟨bucket, key, req.body, now, hash req.body, strLen req.body⟩
          (.ok obj,
           { st with
               profiles := mapSet st.profiles "default"
                 (mapSet bucketsMap bucket (addObject s3bucket obj)) })

/-! ## Listing engine -/

/-- The key order used by the listing engine: lexicographic on the
character lists (Lean's `String` order instance is iterator based and
does not evaluate inside the kernel, so the order is taken on `.data`;
it is the same lexicographic codepoint order). -/
def keyLe (a b : S3Object) : Prop := a.key.data ≤ b.key.data

instance : DecidableRel keyLe := fun a b =>
  inferInstanceAs (Decidable (a.key.data ≤ b.key.data))

instance : IsTotal S3Object keyLe := ⟨fun a b => le_total a.key.data b.key.data⟩

instance : IsTrans S3Object keyLe := ⟨fun _ _ _ h1 h2 => le_trans h1 h2⟩

/-- The sort of src/index.js:714, `objects.sort((a, b) => a.key < b.key
? -1 : 1)`: ascending lexicographic key order.  A bucket never holds two
objects with the same key, and on key-distinct lists every comparison
sort agrees, so the stable insertion sort is a faithful model of the JS
engine sort under that comparator. -/
def sortByKey (objects : List S3Object) : List S3Object :=
  objects.insertionSort keyLe

/-- The relative key used by `splitObjects` (src/index.js:673):
`prefix ? obj.key.slice(prefix.length) : obj.key`. -/
def relKey (pfx : Option String) (o : S3Object) : String :=
  match strTruthy pfx with
  | some p => strDrop o.key (strLen p)
  | none => o.key

/-- Recursion of `FakeS3#splitObjects` (src/index.js:666) over the
object list, carrying the `prefixSet` of already-emitted segments. -/
def splitObjectsGo (delimiter : String) (pfx : Option String)
    (seen : List String) : List S3Object → List Entry
  | [] => []
  | obj :: rest =>
    let parts := jsSplit (relKey pfx obj) delimiter
    if parts.length = 1 then
      .obj obj :: splitObjectsGo delimiter pfx seen rest
    else
      let segment := parts.headD "" ++ delimiter
      if segment ∈ seen then
        splitObjectsGo delimiter pfx seen rest
      else
        .cpfx (((strTruthy pfx).getD "") ++ segment) ::
          splitObjectsGo delimiter pfx (segment :: seen) rest

/-- Model of `FakeS3#splitObjects` (src/index.js:666): replace each key with more
than one delimiter segment by a common-prefix entry at its first
occurrence, deduplicated; keep single-segment keys as plain entries. -/
def splitObjects (objects : List S3Object) (delimiter : String)
    (pfx : Option String) : List Entry :=
  splitObjectsGo delimiter pfx [] objects

/-- Lines 599-609 of src/index.js: the effective `maxKeys` — default
1000, lowered to a parsed `max-keys` query value when that value is
smaller (a `NaN` comparison is false and keeps the default). -/
def effectiveMaxKeys (maxKeysQ : Option String) : Int :=
  match strTruthy maxKeysQ with
  | none => 1000
  | some s =>
    match jsParseInt s with
    | none => 1000
    | some q => if q < 1000 then q else 1000

/-- Result record of `FakeS3#paginate`. -/
structure PageResult where
  objects : List Entry
  prevToken : Option String
  maxKeys : Int
  nextToken : Option String
deriving DecidableEq, Repr

/-- The startAfter matcher of src/index.js:629: common-prefix entries
never match (the JS callback returns `undefined` for them). -/
def entryMatchesKey (sa : String) (e : Entry) : Bool :=
  match e with
  | .cpfx _ => false
  | .obj o => o.key = sa

/-- Lines 628-636 of src/index.js: when a (truthy) `startAfter` is set,
drop the first matching plain entry and everything before it; when
nothing matches, the sequence is left unchanged. -/
def applyStartAfter (startAfter : Option String) (rawObjects : List Entry) :
    List Entry :=
  match startAfter with
  | none => rawObjects
  | some sa =>
    match jsFindIndex (entryMatchesKey sa) rawObjects with
    | some i => rawObjects.drop (i + 1)
    | none => rawObjects

/-- Lines 628-657 of src/index.js: the tail of `paginate` shared by the
token and no-token paths, after `offset` and `startAfter` have been
resolved. -/
def paginateRest (st : FakeS3) (freshTok : String) (maxKeys offset : Int)
    (startAfter : Option String) (prevToken : Option String)
    (rawObjects : List Entry) : Except S3Err PageResult × FakeS3 :=
  let rawObjects := applyStartAfter startAfter rawObjects
  let e := offset + maxKeys
  let resultObjects := jsSlice rawObjects offset e
  if (rawObjects.length : Int) > e then
    (.ok ⟨resultObjects, prevToken, maxKeys, some freshTok⟩,
     { st with tokens := mapSet st.tokens freshTok ⟨e, startAfter⟩ })
  else
    (.ok ⟨resultObjects, prevToken, maxKeys, none⟩, st)

/-- Model of `FakeS3#paginate` (src/index.js:598): resolve `max-keys`,
`start-after` and the continuation token (consuming the token — it is
deleted before the lookup result is checked, and an unknown token is an
error), then slice the page and mint a new token when truncated.
`freshTok` models the `cuuid()` call. -/
def paginate (st : FakeS3) (freshTok : String)
    (maxKeysQ startAfterQ contTokQ : Option String)
    (rawObjects : List Entry) : Except S3Err PageResult × FakeS3 :=
  let maxKeys := effectiveMaxKeys maxKeysQ
  let startAfter0 := strTruthy startAfterQ
  match strTruthy contTokQ with
  | some tok =>
    let tokenInfo := mapGet st.tokens tok
    let st1 := { st with tokens := mapDelete st.tokens tok }
    match tokenInfo with
    | none => (.error ⟨"invalid next token", none, none⟩, st1)
    | some info =>
      let startAfter :=
        match strTruthy info.startAfter with
        | some s => some s
        | none => startAfter0
      paginateRest st1 freshTok maxKeys info.offset startAfter (some tok)
        rawObjects
  | none => paginateRest st freshTok maxKeys 0 startAfter0 none rawObjects

/-! ## ListObjectsV2 handler -/

/-- A parsed `GET /:bucket` request: URL path, the listing query
parameters, and the access key id extracted from the authorization
header by the `stripCreds` regex (`none` when the header does not
match). -/
structure ListRequest where
  path : String
  pfxQ : Option String
  delimiterQ : Option String
  maxKeysQ : Option String
  startAfterQ : Option String
  contTokenQ : Option String
  authKey : Option String
deriving DecidableEq, Repr

/-- Model of `FakeS3#_getBucketsMap` (src/index.js:535): the caller's profile by
credential identity, falling back to `"default"`. -/
def getBucketsMap (st : FakeS3) (authKey : Option String) :
    Option (List (String × List S3Object)) :=
  let p := match authKey with | some k => k | none => "default"
  match mapGet st.profiles p with
  | some info => some info
  | none => mapGet st.profiles "default"

/-- Plain object entries of a page, in order (the `<Contents>` items of
the rendered response). -/
def entriesContents (es : List Entry) : List S3Object :=
  es.filterMap (fun e => match e with | .obj o => some o | .cpfx _ => none)

/-- Common-prefix strings of a page, in order (the `<CommonPrefixes>`
items of the rendered response). -/
def entriesCommonPfxs (es : List Entry) : List String :=
  es.filterMap (fun e => match e with | .obj _ => none | .cpfx p => some p)

/-- The fields of the rendered ListObjectsV2 XML that the claims are
about (src/index.js:742-786). -/
structure ListResult where
  name : String
  keyCount : Nat
  isTruncated : Bool
  maxKeys : Int
  contents : List S3Object
  commonPfxs : List String
  entries : List Entry
  nextContinuationToken : Option String
  continuationToken : Option String
deriving DecidableEq, Repr

/-- Model of `FakeS3#_handleGetObjectsV2` (src/index.js:695): parse the path,
resolve the bucket in the caller's profile, sort by key, apply the
prefix filter, apply the delimiter grouping, then paginate. -/
def handleGetObjectsV2 (st : FakeS3) (freshTok : String)
    (req : ListRequest) : Except S3Err ListResult × FakeS3 :=
  let parts := jsSplit req.path "/"
  if parts.length > 2 ∨ parts.head? ≠ some "" then
    (.error ⟨"invalid url, expected /:bucket", none, none⟩, st)
  else
    let bucket := parts.getD 1 ""
    match (getBucketsMap st req.authKey).bind (fun m => mapGet m bucket) with
    | none =>
      (.error ⟨"The specified bucket does not exist", some "NoSuchBucket",
               some bucket⟩, st)
    | some s3bucket =>
      let objects := sortByKey s3bucket
      let pfx := strTruthy req.pfxQ
      let objects :=
        match pfx with
        | some p => objects.filter (fun o => strStartsWith o.key p)
        | none => objects
      let allObjects :=
        match strTruthy req.delimiterQ with
        | some d => splitObjects objects d pfx
        | none => objects.map Entry.obj
      match paginate st freshTok req.maxKeysQ req.startAfterQ req.contTokenQ
          allObjects with
      | (.error err, st2) => (.error err, st2)
      | (.ok pr, st2) =>
        (.ok { name := bucket
               keyCount := pr.objects.length
               isTruncated := pr.nextToken.isSome
               maxKeys := pr.maxKeys
               contents := entriesContents pr.objects
               commonPfxs := entriesCommonPfxs pr.objects
               entries := pr.objects
               nextContinuationToken := pr.nextToken
               continuationToken := pr.prevToken }, st2)

/-- The client loop of the pagination-completeness claim: issue
`GET /:bucket` requests, feeding each response's
`NextContinuationToken` into the next request until a response is not
truncated, and concatenate the `<Contents>` entries of the pages.
`ctr` numbers the fresh tokens handed to the server; `fuel` bounds the
number of requests. -/
def listAllPages (bucket : String) (maxKeysQ : Option String) :
    Nat → FakeS3 → Nat → Option String → Option (List S3Object)
  | 0, _, _, _ => none
  | fuel + 1, st, ctr, contTok =>
    match handleGetObjectsV2 st ("tok" ++ toString ctr)
        ⟨"/" ++ bucket, none, none, maxKeysQ, none, contTok, none⟩ with
    | (.error _, _) => none
    | (.ok res, st2) =>
      match res.nextContinuationToken with
      | none => some res.contents
      | some nt =>
        (listAllPages bucket maxKeysQ fuel st2 (ctr + 1) (some nt)).map
          (res.contents ++ ·)

/-! ## Sample values for concrete instances -/

/-- A sample object with the given key, used by concrete instances. -/
def sampleObj (k : String) : S3Object := ⟨"b", k, "", "", "", 0⟩

/-- A sample owner record, used by concrete instances. -/
def sampleOwner : S3BucketOwner := ⟨"admin", "1"⟩

/-- The objects of one bucket of one profile, if both exist. -/
def bucketObjectsOf (st : FakeS3) (accessKeyId bucket : String) :
    Option (List S3Object) :=
  (mapGet st.profiles accessKeyId).bind (fun m => mapGet m bucket)

/-- The common-prefix string a multi-segment key contributes (before
deduplication), in input order; single-segment keys contribute
nothing.  Used to state where `splitObjects` places each common-prefix
entry. -/
def cpfxStream (d : String) (p : Option String) (objs : List S3Object) :
    List String :=
  objs.filterMap (fun o =>
    if (jsSplit (relKey p o) d).length = 1 then none
    else some (((strTruthy p).getD "") ++ ((jsSplit (relKey p o) d).headD "" ++ d)))

/-- Keep the first occurrence of each string, dropping later
duplicates (`seen` holds the strings already kept). -/
def dedupKeepFirstGo (seen : List String) : List String → List String
  | [] => []
  | x :: xs =>
    if x ∈ seen then dedupKeepFirstGo seen xs
    else x :: dedupKeepFirstGo (x :: seen) xs

/-- The website-bucket state of the delimiter-grouping scenario. -/
def stWeb : FakeS3 :=
  ⟨[("default",
     [("web",
       [sampleObj "images/a.png", sampleObj "images/b.png",
        sampleObj "images/art/x.svg", sampleObj "index.html"])])], [], [], ""⟩

/-! ## Association map lemmas -/

theorem mapGet_mapSet_self {β : Type} (m : List (String × β)) (k : String) (v : β) :
    mapGet (mapSet m k v) k = some v := by
  induction m with
  | nil => simp [mapSet, mapGet]
  | cons p rest ih =>
    obtain ⟨k', v'⟩ := p
    by_cases h : k' = k
    · simp [mapSet, mapGet, h]
    · simp [mapSet, mapGet, h, ih]

theorem mapGet_mapSet_ne {β : Type} (m : List (String × β)) (k k' : String) (v : β)
    (h : k' ≠ k) : mapGet (mapSet m k v) k' = mapGet m k' := by
  induction m with
  | nil => simp [mapSet, mapGet, Ne.symm h]
  | cons p rest ih =>
    obtain ⟨k0, v0⟩ := p
    by_cases h0 : k0 = k
    · subst h0
      simp [mapSet, mapGet, Ne.symm h]
    · simp only [mapSet, if_neg h0, mapGet]
      by_cases h1 : k0 = k'
      · simp [h1]
      · simp [h1, ih]

theorem mapGet_mapDelete_self {β : Type} (m : List (String × β)) (k : String) :
    mapGet (mapDelete m k) k = none := by
  induction m with
  | nil => simp [mapDelete, mapGet]
  | cons p rest ih =>
    obtain ⟨k', v'⟩ := p
    by_cases h : k' = k
    · simp [mapDelete, h, ih]
    · simp [mapDelete, mapGet, h, ih]

theorem mapGet_mapDelete_ne {β : Type} (m : List (String × β)) (k k' : String)
    (h : k' ≠ k) : mapGet (mapDelete m k) k' = mapGet m k' := by
  induction m with
  | nil => simp [mapDelete]
  | cons p rest ih =>
    obtain ⟨k0, v0⟩ := p
    by_cases h0 : k0 = k
    · subst h0
      simp [mapDelete, mapGet, Ne.symm h, ih]
    · simp only [mapDelete, if_neg h0, mapGet]
      by_cases h1 : k0 = k'
      · simp [h1]
      · simp [h1, ih]

/-- Once a key holds `v`, folding further constant-`v` writes over any
name list keeps it at `v`. -/
theorem mapGet_foldl_mapSet_of_get {β : Type} (v : β) (n : String) :
    ∀ (names : List String) (m0 : List (String × β)),
      mapGet m0 n = some v →
      mapGet (names.foldl (fun m x => mapSet m x v) m0) n = some v := by
  intro names
  induction names with
  | nil => intro m0 h; simpa using h
  | cons x xs ih =>
    intro m0 h
    simp only [List.foldl_cons]
    apply ih
    by_cases hx : x = n
    · subst hx; exact mapGet_mapSet_self m0 x v
    · rw [mapGet_mapSet_ne m0 x n v (fun hh => hx hh.symm)]; exact h

/-- Folding constant-`v` writes over a name list sets every listed name
to `v`. -/
theorem mapGet_foldl_mapSet_mem {β : Type} (v : β) (n : String) :
    ∀ (names : List String) (m0 : List (String × β)),
      n ∈ names →
      mapGet (names.foldl (fun m x => mapSet m x v) m0) n = some v := by
  intro names
  induction names with
  | nil => intro m0 h; cases h
  | cons x xs ih =>
    intro m0 h
    simp only [List.foldl_cons]
    rcases List.mem_cons.mp h with h | h
    · subst h
      exact mapGet_foldl_mapSet_of_get v n xs _ (mapGet_mapSet_self m0 n v)
    · exact ih _ h

/-! ## Claim C1: populateBuckets and existing buckets -/

/-- C1 counterexample: a bucket `"b"` under identity `"id"` holds one
object; calling `populateBuckets` again for the same identity and
bucket name clears the bucket, contradicting the claim that objects
already stored must be left unchanged. -/
theorem c1_counterexample :
    bucketObjectsOf ⟨[("id", [("b", [sampleObj "a"])])], [], [], ""⟩ "id" "b"
        = some [sampleObj "a"]
    ∧ bucketObjectsOf
        (populateBuckets ⟨[("id", [("b", [sampleObj "a"])])], [], [], ""⟩
          "id" sampleOwner ["b"]) "id" "b" = some []
    ∧ bucketObjectsOf
        (populateBuckets ⟨[("id", [("b", [sampleObj "a"])])], [], [], ""⟩
          "id" sampleOwner ["b"]) "id" "b" ≠ some [sampleObj "a"] := by
  refine ⟨rfl, rfl, ?_⟩
  decide

/-- C1 (amended): `populateBuckets` is not idempotent on bucket
contents — re-creating a bucket name under an identity resets that
bucket to a fresh **empty** bucket, discarding any objects already
stored in it; the owner info is associated with each listed name (last
write wins per name). -/
theorem c1_populateBuckets_resets (st : FakeS3) (accessKeyId : String)
    (owner : S3BucketOwner) (names : List String) (n : String)
    (hn : n ∈ names) :
    bucketObjectsOf (populateBuckets st accessKeyId owner names) accessKeyId n
        = some []
    ∧ mapGet (populateBuckets st accessKeyId owner names).bucketOwnerInfo n
        = some owner := by
  constructor
  · simp only [bucketObjectsOf, populateBuckets, mapGet_mapSet_self,
      Option.some_bind]
    exact mapGet_foldl_mapSet_mem ([] : List S3Object) n names _ hn
  · simp only [populateBuckets]
    exact mapGet_foldl_mapSet_mem owner n names _ hn

/-! ## Listing engine lemmas -/

theorem strTruthy_some_ne (s : String) (h : s ≠ "") :
    strTruthy (some s) = some s := by
  simp [strTruthy, h]

theorem jsSlice_natCast {α : Type} (L : List α) (o M : Nat) :
    jsSlice L (o : Int) ((o : Int) + (M : Int)) = (L.drop o).take M := by
  have hcast : ((o : Int) + (M : Int)) = ((o + M : Nat) : Int) := by push_cast; ring
  rw [hcast]
  unfold jsSlice jsSliceIdx
  rw [if_neg (by omega : ¬(((o + M : Nat) : Int) < 0)),
    if_neg (by omega : ¬((o : Int) < 0)), Int.toNat_natCast, Int.toNat_natCast]
  rcases le_or_lt o L.length with ho | ho
  · rw [min_eq_left ho]
    rcases le_or_lt (o + M) L.length with hom | hom
    · rw [min_eq_left hom]
      exact (List.take_drop o M L).symm
    · rw [min_eq_right (le_of_lt hom), List.take_length,
        List.take_of_length_le (by rw [List.length_drop]; omega)]
  · rw [min_eq_right (le_of_lt ho),
      List.drop_eq_nil_of_le (by rw [List.length_take]; omega),
      List.drop_eq_nil_of_le (by omega : L.length ≤ o)]
    simp

theorem jsSlice_length_le {α : Type} (L : List α) (o mk : Int) (h : 0 ≤ mk) :
    ((jsSlice L o (o + mk)).length : Int) ≤ mk := by
  unfold jsSlice jsSliceIdx
  simp only [List.length_drop, List.length_take]
  split_ifs <;> omega

theorem sortByKey_sorted (l : List S3Object) : List.Sorted keyLe (sortByKey l) :=
  List.sorted_insertionSort keyLe l

theorem sortByKey_perm (l : List S3Object) : List.Perm (sortByKey l) l :=
  List.perm_insertionSort keyLe l

theorem entriesContents_map_obj (l : List S3Object) :
    entriesContents (l.map Entry.obj) = l := by
  induction l with
  | nil => rfl
  | cons x xs ih => simpa [entriesContents, List.filterMap_cons] using ih

theorem jsSlice_map {α β : Type} (f : α → β) (L : List α) (b e : Int) :
    jsSlice (L.map f) b e = (jsSlice L b e).map f := by
  simp [jsSlice, List.length_map, List.map_take, List.map_drop]

theorem applyStartAfter_none (L : List Entry) : applyStartAfter none L = L := rfl

theorem paginateRest_eq (st : FakeS3) (ft : String) (mk off : Int)
    (sa pt : Option String) (L : List Entry) :
    paginateRest st ft mk off sa pt L =
      if ((applyStartAfter sa L).length : Int) > off + mk then
        (.ok ⟨jsSlice (applyStartAfter sa L) off (off + mk), pt, mk, some ft⟩,
         { st with tokens := mapSet st.tokens ft ⟨off + mk, sa⟩ })
      else
        (.ok ⟨jsSlice (applyStartAfter sa L) off (off + mk), pt, mk, none⟩, st) :=
  rfl

theorem paginate_none_tok (st : FakeS3) (ft : String) (mkQ saQ : Option String)
    (L : List Entry) :
    paginate st ft mkQ saQ none L =
      paginateRest st ft (effectiveMaxKeys mkQ) 0 (strTruthy saQ) none L := rfl

theorem paginate_found_tok (st : FakeS3) (ft : String) (mkQ saQ : Option String)
    (tok : String) (info : TokenInfo) (L : List Entry)
    (ht : tok ≠ "") (hlook : mapGet st.tokens tok = some info) :
    paginate st ft mkQ saQ (some tok) L =
      paginateRest { st with tokens := mapDelete st.tokens tok } ft
        (effectiveMaxKeys mkQ) info.offset
        (match strTruthy info.startAfter with
         | some s => some s
         | none => strTruthy saQ) (some tok) L := by
  unfold paginate
  rw [strTruthy_some_ne tok ht]
  simp only [hlook]

theorem paginate_missing_tok (st : FakeS3) (ft : String) (mkQ saQ : Option String)
    (tok : String) (L : List Entry)
    (ht : tok ≠ "") (hlook : mapGet st.tokens tok = none) :
    paginate st ft mkQ saQ (some tok) L =
      (.error ⟨"invalid next token", none, none⟩,
       { st with tokens := mapDelete st.tokens tok }) := by
  unfold paginate
  rw [strTruthy_some_ne tok ht]
  simp only [hlook]

theorem paginate_snd_profiles (st : FakeS3) (ft : String)
    (mkQ saQ ctQ : Option String) (L : List Entry) :
    (paginate st ft mkQ saQ ctQ L).2.profiles = st.profiles := by
  unfold paginate
  cases h : strTruthy ctQ with
  | none =>
    dsimp only
    rw [paginateRest_eq]
    split <;> rfl
  | some tok =>
    dsimp only
    cases hl : mapGet st.tokens tok with
    | none => rfl
    | some info =>
      dsimp only
      rw [paginateRest_eq]
      split <;> rfl

/-- Reduction of the GET handler under the default profile with no
prefix and no delimiter: it is `paginate` over the sorted bucket,
wrapped into the response record. -/
theorem handleGetObjectsV2_nodelim (st : FakeS3) (ft b : String)
    (mkQ ct : Option String) (dm : List (String × List S3Object))
    (OS : List S3Object)
    (hpath : jsSplit ("/" ++ b) "/" = ["", b])
    (hdm : mapGet st.profiles "default" = some dm)
    (hOS : mapGet dm b = some OS) :
    handleGetObjectsV2 st ft ⟨"/" ++ b, none, none, mkQ, none, ct, none⟩ =
      (match paginate st ft mkQ none ct ((sortByKey OS).map Entry.obj) with
       | (.error err, st2) => (.error err, st2)
       | (.ok pr, st2) =>
         (.ok ⟨b, pr.objects.length, pr.nextToken.isSome, pr.maxKeys,
               entriesContents pr.objects, entriesCommonPfxs pr.objects,
               pr.objects, pr.nextToken, pr.prevToken⟩, st2)) := by
  unfold handleGetObjectsV2 getBucketsMap
  simp only [hpath, hdm]
  rw [if_neg (by simp)]
  simp only [Option.some_bind, List.getD_cons_succ, List.getD_cons_zero, hOS]
  rfl

/-! ## Claim C2: full listings are sorted by key -/

/-- C2: a list-objects-v2 request with no delimiter returns the object
entries in ascending lexicographic key order, regardless of the order
in which the objects sit in the bucket: the page is exactly the first
(at most 1000) elements of the key-sorted bucket, it is sorted, and
when the bucket fits in one page it is a permutation of the bucket's
objects. -/
theorem c2_full_listing_sorted (st : FakeS3) (ft b : String)
    (dm : List (String × List S3Object)) (OS : List S3Object)
    (hpath : jsSplit ("/" ++ b) "/" = ["", b])
    (hdm : mapGet st.profiles "default" = some dm)
    (hOS : mapGet dm b = some OS) :
    ∃ r st2,
      handleGetObjectsV2 st ft ⟨"/" ++ b, none, none, none, none, none, none⟩
          = (.ok r, st2)
      ∧ r.contents = (sortByKey OS).take 1000
      ∧ List.Sorted keyLe r.contents
      ∧ (OS.length ≤ 1000 → List.Perm r.contents OS) := by
  rw [handleGetObjectsV2_nodelim st ft b none none dm OS hpath hdm hOS,
    paginate_none_tok, paginateRest_eq]
  have hcontents :
      entriesContents (jsSlice (applyStartAfter (strTruthy none)
          ((sortByKey OS).map Entry.obj)) 0 (0 + effectiveMaxKeys none))
        = (sortByKey OS).take 1000 := by
    have h1000 := jsSlice_natCast ((sortByKey OS).map Entry.obj) 0 1000
    norm_num at h1000
    rw [show strTruthy none = (none : Option String) from rfl, applyStartAfter_none,
      show (0 : Int) + effectiveMaxKeys none = (1000 : Int) from rfl, h1000,
      ← List.map_take, entriesContents_map_obj]
  have hsorted : List.Sorted keyLe ((sortByKey OS).take 1000) :=
    (sortByKey_sorted OS).sublist (List.take_sublist 1000 (sortByKey OS))
  have hperm : OS.length ≤ 1000 → List.Perm ((sortByKey OS).take 1000) OS := by
    intro hle
    rw [List.take_of_length_le (by rw [(sortByKey_perm OS).length_eq]; exact hle)]
    exact sortByKey_perm OS
  by_cases hc : ((applyStartAfter (strTruthy none)
      ((sortByKey OS).map Entry.obj)).length : Int) > 0 + effectiveMaxKeys none
  · rw [if_pos hc]
    refine ⟨_, _, rfl, hcontents, ?_, ?_⟩
    · rw [hcontents]; exact hsorted
    · intro hle; rw [hcontents]; exact hperm hle
  · rw [if_neg hc]
    refine ⟨_, _, rfl, hcontents, ?_, ?_⟩
    · rw [hcontents]; exact hsorted
    · intro hle; rw [hcontents]; exact hperm hle

/-- C2 witness: the theorem applied to a two-object bucket stored in
reverse key order. -/
theorem c2_witness :
    ∃ r st2,
      handleGetObjectsV2
          ⟨[("default", [("b", [sampleObj "z", sampleObj "a"])])], [], [], ""⟩
          "t" ⟨"/" ++ "b", none, none, none, none, none, none⟩ = (.ok r, st2)
      ∧ r.contents = (sortByKey [sampleObj "z", sampleObj "a"]).take 1000
      ∧ List.Sorted keyLe r.contents
      ∧ ([sampleObj "z", sampleObj "a"].length ≤ 1000 →
          List.Perm r.contents [sampleObj "z", sampleObj "a"]) :=
  c2_full_listing_sorted
    ⟨[("default", [("b", [sampleObj "z", sampleObj "a"])])], [], [], ""⟩
    "t" "b" [("b", [sampleObj "z", sampleObj "a"])]
    [sampleObj "z", sampleObj "a"] (by decide) (by decide) (by decide)

/-! ## Claim C3: pagination completeness -/

theorem tok_ne_empty (ctr : Nat) : ("tok" ++ toString ctr) ≠ "" := by
  intro h
  have h2 := congrArg String.data h
  rw [String.data_append] at h2
  simp at h2

/-- Lemma: `paginateRest` with natural offset and page size, no startAfter:
the page is `take`/`drop` and the truncation test is on naturals. -/
theorem paginateRest_nat (st : FakeS3) (ft : String) (M o : Nat)
    (pt : Option String) (L : List Entry) :
    paginateRest st ft (M : Int) (o : Int) none pt L =
      if L.length > o + M then
        (.ok ⟨(L.drop o).take M, pt, (M : Int), some ft⟩,
         { st with tokens := mapSet st.tokens ft ⟨((o + M : Nat) : Int), none⟩ })
      else
        (.ok ⟨(L.drop o).take M, pt, (M : Int), none⟩, st) := by
  rw [paginateRest_eq, applyStartAfter_none]
  have hslice := jsSlice_natCast L o M
  have hcast : ((o : Int) + (M : Int)) = ((o + M : Nat) : Int) := by
    push_cast; ring
  by_cases hc : L.length > o + M
  · rw [if_pos (by exact_mod_cast hc), if_pos hc, hslice, hcast]
  · rw [if_neg (by exact_mod_cast hc), if_neg hc, hslice]

theorem entriesContents_take_drop_map (L : List S3Object) (o M : Nat) :
    entriesContents (((L.map Entry.obj).drop o).take M) = (L.drop o).take M := by
  rw [← List.map_drop, ← List.map_take, entriesContents_map_obj]

/-- Walking the pages from a continuation token whose recorded offset
is `o` (and no recorded startAfter) returns exactly the sorted tail
from `o` on, provided enough fuel. -/
theorem listAllPages_from_token (b : String)
    (dm : List (String × List S3Object)) (OS : List S3Object)
    (mkQ : Option String) (M : Nat)
    (hpath : jsSplit ("/" ++ b) "/" = ["", b])
    (hmk : effectiveMaxKeys mkQ = (M : Int)) (hM : 1 ≤ M) :
    ∀ (fuel o : Nat) (st : FakeS3) (ctr : Nat) (tok : String), tok ≠ "" →
      mapGet st.profiles "default" = some dm →
      mapGet dm b = some OS →
      mapGet st.tokens tok = some ⟨(o : Int), none⟩ →
      o < (sortByKey OS).length →
      (sortByKey OS).length - o ≤ fuel →
      listAllPages b mkQ fuel st ctr (some tok)
        = some ((sortByKey OS).drop o) := by
  intro fuel
  induction fuel with
  | zero =>
    intro o st ctr tok _ _ _ _ ho hfuel
    omega
  | succ fuel ih =>
    intro o st ctr tok htok hdm hOS htokens ho hfuel
    rw [listAllPages,
      handleGetObjectsV2_nodelim st _ b mkQ (some tok) dm OS hpath hdm hOS,
      paginate_found_tok st _ mkQ none tok ⟨(o : Int), none⟩ _ htok htokens]
    have hsa : (match strTruthy (TokenInfo.mk (o : Int) none).startAfter with
        | some s => some s
        | none => strTruthy none) = (none : Option String) := rfl
    rw [hsa, hmk, paginateRest_nat]
    set L := sortByKey OS with hL
    rw [List.length_map]
    by_cases hc : L.length > o + M
    · rw [if_pos hc]
      have hrec := ih (o + M)
        { st with tokens :=
            (mapSet (mapDelete st.tokens tok) ("tok" ++ toString ctr)
              ⟨((o + M : Nat) : Int), none⟩) }
        (ctr + 1) ("tok" ++ toString ctr) (tok_ne_empty ctr) hdm hOS
        (mapGet_mapSet_self _ _ _) hc (by omega)
      dsimp only
      rw [hrec]
      simp only [Option.map_some']
      rw [entriesContents_take_drop_map, ← List.drop_drop,
        List.take_append_drop]
    · rw [if_neg hc]
      dsimp only
      rw [entriesContents_take_drop_map,
        List.take_of_length_le (by rw [List.length_drop]; omega)]

/-- C3: for a bucket of `N` objects and an effective page size
`1 ≤ M < N`, issuing list-objects-v2 requests and feeding each
response's `NextContinuationToken` into the next request until a
response has `IsTruncated = false` yields exactly the `N` keys of the
bucket — no duplicates, no gaps — concatenated in sorted key order
(the concatenation equals the key-sorted bucket, a permutation of the
bucket's objects). -/
theorem c3_pagination_complete (st : FakeS3) (b : String)
    (dm : List (String × List S3Object)) (OS : List S3Object)
    (mkQ : Option String) (M : Nat)
    (hpath : jsSplit ("/" ++ b) "/" = ["", b])
    (hdm : mapGet st.profiles "default" = some dm)
    (hOS : mapGet dm b = some OS)
    (hmk : effectiveMaxKeys mkQ = (M : Int))
    (hM : 1 ≤ M) (hMN : M < OS.length) :
    listAllPages b mkQ OS.length st 0 none = some (sortByKey OS)
    ∧ List.Perm (sortByKey OS) OS := by
  have hlen : (sortByKey OS).length = OS.length := (sortByKey_perm OS).length_eq
  refine ⟨?_, sortByKey_perm OS⟩
  obtain ⟨n, hn⟩ : ∃ n, OS.length = n + 1 := ⟨OS.length - 1, by omega⟩
  rw [hn, listAllPages,
    handleGetObjectsV2_nodelim st _ b mkQ none dm OS hpath hdm hOS,
    paginate_none_tok]
  have hsa : strTruthy (none : Option String) = none := rfl
  rw [hsa, hmk, show (0 : Int) = ((0 : Nat) : Int) from rfl, paginateRest_nat]
  rw [List.length_map]
  have hc : (sortByKey OS).length > 0 + M := by omega
  rw [if_pos hc]
  have hrec := listAllPages_from_token b dm OS mkQ M hpath hmk hM n (0 + M)
    { st with tokens :=
        (mapSet st.tokens ("tok" ++ toString 0) ⟨((0 + M : Nat) : Int), none⟩) }
    1 ("tok" ++ toString 0) (tok_ne_empty 0) hdm hOS
    (mapGet_mapSet_self _ _ _) (by omega) (by omega)
  dsimp only
  rw [hrec]
  simp only [Option.map_some']
  rw [entriesContents_take_drop_map, ← List.drop_drop, List.take_append_drop,
    List.drop_zero]


/-- C3 witness: a five-object bucket walked with page size 2. -/
theorem c3_witness :
    listAllPages "b" (some "2")
        [sampleObj "c", sampleObj "a", sampleObj "e", sampleObj "d",
         sampleObj "bb"].length
        ⟨[("default",
           [("b", [sampleObj "c", sampleObj "a", sampleObj "e", sampleObj "d",
                   sampleObj "bb"])])], [], [], ""⟩ 0 none
      = some (sortByKey [sampleObj "c", sampleObj "a", sampleObj "e",
          sampleObj "d", sampleObj "bb"])
    ∧ List.Perm (sortByKey [sampleObj "c", sampleObj "a", sampleObj "e",
        sampleObj "d", sampleObj "bb"])
        [sampleObj "c", sampleObj "a", sampleObj "e", sampleObj "d",
         sampleObj "bb"] :=
  c3_pagination_complete
    ⟨[("default",
       [("b", [sampleObj "c", sampleObj "a", sampleObj "e", sampleObj "d",
               sampleObj "bb"])])], [], [], ""⟩ "b"
    [("b", [sampleObj "c", sampleObj "a", sampleObj "e", sampleObj "d",
            sampleObj "bb"])]
    [sampleObj "c", sampleObj "a", sampleObj "e", sampleObj "d",
     sampleObj "bb"]
    (some "2") 2 (by decide) (by decide) (by decide) (by decide)
    (by decide) (by decide)

/-- C1 witness: the amended theorem at a concrete instance. -/
theorem c1_witness :
    ("b" ∈ ["b"])
    ∧ bucketObjectsOf
        (populateBuckets ⟨[("id", [("b", [sampleObj "a"])])], [], [], ""⟩
          "id" sampleOwner ["b"]) "id" "b" = some [] := by
  refine ⟨by decide, ?_⟩
  exact (c1_populateBuckets_resets ⟨[("id", [("b", [sampleObj "a"])])], [], [], ""⟩
    "id" sampleOwner ["b"] "b" (by decide)).1




/-! ## Claim C4: continuation tokens are single-use -/

/-- C4: a continuation token is deleted from the token table upon
consumption, so (i) presenting a token that is not in the table yields
the `invalid next token` error, and (ii) after a successful request
consumed a token (and the freshly minted token, if any, differs from
it), presenting the same token again yields the `invalid next token`
error — never a silent fallback. -/
theorem c4_tokens_single_use (st : FakeS3) (ft : String)
    (mkQ saQ : Option String) (tok : String) (L : List Entry)
    (htok : tok ≠ "") :
    (mapGet st.tokens tok = none →
      paginate st ft mkQ saQ (some tok) L
        = (.error ⟨"invalid next token", none, none⟩,
           { st with tokens := mapDelete st.tokens tok }))
    ∧ (∀ pr st2, paginate st ft mkQ saQ (some tok) L = (.ok pr, st2) →
        ft ≠ tok →
        ∀ (ft2 : String) (mkQ2 saQ2 : Option String) (L2 : List Entry),
          paginate st2 ft2 mkQ2 saQ2 (some tok) L2
            = (.error ⟨"invalid next token", none, none⟩,
               { st2 with tokens := mapDelete st2.tokens tok })) := by
  constructor
  · intro hnone
    exact paginate_missing_tok st ft mkQ saQ tok L htok hnone
  · intro pr st2 hok hne ft2 mkQ2 saQ2 L2
    have h2 : mapGet st2.tokens tok = none := by
      cases hl : mapGet st.tokens tok with
      | none =>
        rw [paginate_missing_tok st ft mkQ saQ tok L htok hl] at hok
        simp at hok
      | some info =>
        rw [paginate_found_tok st ft mkQ saQ tok info L htok hl,
          paginateRest_eq] at hok
        split at hok
        · injection hok with h1 hst
          rw [← hst]
          dsimp only
          rw [mapGet_mapSet_ne _ _ _ _ (Ne.symm hne), mapGet_mapDelete_self]
        · injection hok with h1 hst
          rw [← hst]
          dsimp only
          rw [mapGet_mapDelete_self]
    exact paginate_missing_tok st2 ft2 mkQ2 saQ2 tok L2 htok h2

/-- C4 witness: consume the only token of a table, then present it
again; the second request errors. -/
theorem c4_witness :
    paginate ⟨[], [], [], ""⟩ "u2" none none (some "t") []
      = (.error ⟨"invalid next token", none, none⟩, ⟨[], [], [], ""⟩) := by
  have h := (c4_tokens_single_use ⟨[], [], [("t", ⟨0, none⟩)], ""⟩ "u"
      none none "t" [] (by decide)).2
    ⟨[], some "t", 1000, none⟩ ⟨[], [], [], ""⟩ rfl (by decide)
    "u2" none none []
  exact h

/-! ## Claim C5: delimiter grouping -/

/-- Unfolding equation of `splitObjectsGo` on a cons. -/
theorem splitObjectsGo_cons (d : String) (p : Option String)
    (seen : List String) (obj : S3Object) (rest : List S3Object) :
    splitObjectsGo d p seen (obj :: rest)
      = if (jsSplit (relKey p obj) d).length = 1 then
          .obj obj :: splitObjectsGo d p seen rest
        else if ((jsSplit (relKey p obj) d).headD "" ++ d) ∈ seen then
          splitObjectsGo d p seen rest
        else
          .cpfx (((strTruthy p).getD "")
              ++ ((jsSplit (relKey p obj) d).headD "" ++ d)) ::
            splitObjectsGo d p
              (((jsSplit (relKey p obj) d).headD "" ++ d) :: seen) rest := rfl

theorem entriesContents_cons_obj (o : S3Object) (es : List Entry) :
    entriesContents (.obj o :: es) = o :: entriesContents es := rfl

theorem entriesContents_cons_cpfx (s : String) (es : List Entry) :
    entriesContents (.cpfx s :: es) = entriesContents es := rfl

theorem entriesCommonPfxs_cons_obj (o : S3Object) (es : List Entry) :
    entriesCommonPfxs (.obj o :: es) = entriesCommonPfxs es := rfl

theorem entriesCommonPfxs_cons_cpfx (s : String) (es : List Entry) :
    entriesCommonPfxs (.cpfx s :: es) = s :: entriesCommonPfxs es := rfl

/-- Unfolding equation of `cpfxStream` on a cons. -/
theorem cpfxStream_cons (d : String) (p : Option String) (obj : S3Object)
    (rest : List S3Object) :
    cpfxStream d p (obj :: rest)
      = if (jsSplit (relKey p obj) d).length = 1 then cpfxStream d p rest
        else (((strTruthy p).getD "")
            ++ ((jsSplit (relKey p obj) d).headD "" ++ d)) ::
          cpfxStream d p rest := by
  by_cases h : (jsSplit (relKey p obj) d).length = 1
  · simp [cpfxStream, h]
  · simp [cpfxStream, h]

/-- Plain entries of `splitObjects` are exactly the single-segment
keys, kept in input order. -/
theorem splitObjectsGo_contents (d : String) (p : Option String) :
    ∀ (objs : List S3Object) (seen : List String),
      entriesContents (splitObjectsGo d p seen objs)
        = objs.filter (fun o => (jsSplit (relKey p o) d).length == 1) := by
  intro objs
  induction objs with
  | nil => intro seen; rfl
  | cons obj rest ih =>
    intro seen
    rw [splitObjectsGo_cons, List.filter_cons]
    by_cases h1 : (jsSplit (relKey p obj) d).length = 1
    · rw [if_pos h1, if_pos (by simpa using h1), entriesContents_cons_obj,
        ih seen]
    · rw [if_neg h1]
      by_cases h2 : ((jsSplit (relKey p obj) d).headD "" ++ d) ∈ seen
      · rw [if_pos h2,
          if_neg (show ¬((jsSplit (relKey p obj) d).length == 1) = true by
            simpa using h1), ih seen]
      · rw [if_neg h2, entriesContents_cons_cpfx,
          if_neg (show ¬((jsSplit (relKey p obj) d).length == 1) = true by
            simpa using h1), ih]

theorem strAppend_left_cancel {a b c : String} (h : a ++ b = a ++ c) :
    b = c := by
  have hd := congrArg String.data h
  rw [String.data_append, String.data_append] at hd
  exact String.ext (List.append_cancel_left hd)

/-- The common-prefix entries of `splitObjects` are the first
occurrences of the per-key common-prefix strings, in order: the
`prefixSet` deduplication keeps exactly the first occurrence of each
string. -/
theorem splitObjectsGo_cpfxs (d : String) (p : Option String) :
    ∀ (objs : List S3Object) (seen : List String),
      entriesCommonPfxs (splitObjectsGo d p seen objs)
        = dedupKeepFirstGo (seen.map (((strTruthy p).getD "") ++ ·))
            (cpfxStream d p objs) := by
  intro objs
  induction objs with
  | nil => intro seen; rfl
  | cons obj rest ih =>
    intro seen
    rw [splitObjectsGo_cons, cpfxStream_cons]
    by_cases h1 : (jsSplit (relKey p obj) d).length = 1
    · rw [if_pos h1, if_pos h1, entriesCommonPfxs_cons_obj, ih seen]
    · rw [if_neg h1, if_neg h1]
      have hmem : (((jsSplit (relKey p obj) d).headD "" ++ d) ∈ seen)
          ↔ ((((strTruthy p).getD "")
                ++ ((jsSplit (relKey p obj) d).headD "" ++ d))
              ∈ seen.map (((strTruthy p).getD "") ++ ·)) := by
        constructor
        · intro hin
          exact List.mem_map.mpr ⟨_, hin, rfl⟩
        · intro hin
          obtain ⟨x, hx, hxe⟩ := List.mem_map.mp hin
          rwa [← strAppend_left_cancel hxe]
      rw [dedupKeepFirstGo]
      by_cases h2 : ((jsSplit (relKey p obj) d).headD "" ++ d) ∈ seen
      · rw [if_pos h2, if_pos (hmem.mp h2), ih seen]
      · rw [if_neg h2, if_neg (fun hc => h2 (hmem.mpr hc)),
          entriesCommonPfxs_cons_cpfx]
        have hrec := ih (((jsSplit (relKey p obj) d).headD "" ++ d) :: seen)
        rw [List.map_cons] at hrec
        rw [hrec]

/-- Lemma: `dedupKeepFirstGo` emits no duplicates and nothing from `seen`. -/
theorem dedupKeepFirstGo_nodup :
    ∀ (xs : List String) (seen : List String),
      (dedupKeepFirstGo seen xs).Nodup
      ∧ ∀ s ∈ dedupKeepFirstGo seen xs, s ∉ seen := by
  intro xs
  induction xs with
  | nil => intro seen; exact ⟨List.nodup_nil, by simp [dedupKeepFirstGo]⟩
  | cons x rest ih =>
    intro seen
    by_cases hx : x ∈ seen
    · rw [dedupKeepFirstGo, if_pos hx]
      exact ih seen
    · rw [dedupKeepFirstGo, if_neg hx]
      obtain ⟨hnd, hns⟩ := ih (x :: seen)
      refine ⟨List.nodup_cons.mpr ⟨fun hc => (hns x hc) (by simp), hnd⟩, ?_⟩
      intro s hs
      rcases List.mem_cons.mp hs with h | h
      · subst h; exact hx
      · intro hc
        exact hns s h (by simp [hc])

/-- C5: with delimiter grouping, (i) each common-prefix string is
emitted at most once per listing, and the common-prefix entries are
exactly the first occurrences of the per-key common-prefix strings in
sequence order; (ii) the plain entries are exactly the single-segment
keys, interleaved in the input (sorted-key) order; (iii) in particular
for keys `images/a.png, images/b.png, images/art/x.svg, index.html`
with delimiter `/` the listing's common-prefixes are exactly
`images/` and its plain contents exactly `index.html`, with the
`images/` group entry placed at the position of its first sorted-key
occurrence, before `index.html`. -/
theorem c5_delimiter_grouping :
    (∀ (objs : List S3Object) (d : String) (p : Option String),
        (entriesCommonPfxs (splitObjects objs d p)).Nodup
        ∧ entriesCommonPfxs (splitObjects objs d p)
            = dedupKeepFirstGo [] (cpfxStream d p objs)
        ∧ entriesContents (splitObjects objs d p)
            = objs.filter (fun o => (jsSplit (relKey p o) d).length == 1))
    ∧ (∃ r st2,
        handleGetObjectsV2 stWeb "t"
            ⟨"/web", none, some "/", none, none, none, none⟩ = (.ok r, st2)
        ∧ r.commonPfxs = ["images/"]
        ∧ r.contents.map S3Object.key = ["index.html"]
        ∧ r.entries = [.cpfx "images/", .obj (sampleObj "index.html")]) := by
  constructor
  · intro objs d p
    refine ⟨?_, ?_, ?_⟩
    · rw [splitObjects, splitObjectsGo_cpfxs]
      simpa using (dedupKeepFirstGo_nodup (cpfxStream d p objs) []).1
    · rw [splitObjects, splitObjectsGo_cpfxs]
      rfl
    · exact splitObjectsGo_contents d p objs []
  · exact ⟨_, _, rfl, by decide, by decide, by decide⟩

/-! ## Claim C6: max-keys clamping -/

/-- C6 counterexample: with `max-keys=-1` the effective page size is
`-1`, yet one entry is returned (JS `slice(0, -1)` counts a negative
end index from the end of the array), so "at most that many entries
are returned" fails for the claim as stated. -/
theorem c6_counterexample :
    ∃ pr st2,
      paginate ⟨[], [], [], ""⟩ "t" (some "-1") none none
          [.obj (sampleObj "a"), .obj (sampleObj "b")] = (.ok pr, st2)
      ∧ pr.maxKeys = -1
      ∧ pr.objects.length = 1
      ∧ ¬((pr.objects.length : Int) ≤ pr.maxKeys) := by
  exact ⟨_, _, rfl, by decide, by decide, by decide⟩

/-- Every successful `paginate` reports the effective max-keys and
slices the page at offsets `[off, off + maxKeys)`. -/
theorem paginate_ok_shape (st : FakeS3) (ft : String)
    (mkQ saQ ctQ : Option String) (L : List Entry) (pr : PageResult)
    (st2 : FakeS3) (hok : paginate st ft mkQ saQ ctQ L = (.ok pr, st2)) :
    pr.maxKeys = effectiveMaxKeys mkQ
    ∧ ∃ (off : Int) (sa : Option String),
        pr.objects = jsSlice (applyStartAfter sa L) off
          (off + effectiveMaxKeys mkQ) := by
  unfold paginate at hok
  cases hct : strTruthy ctQ with
  | none =>
    rw [hct] at hok
    dsimp only at hok
    rw [paginateRest_eq] at hok
    split at hok <;> injection hok with h1 h2 <;>
      injection h1 with h1 <;> rw [← h1] <;>
      exact ⟨rfl, 0, strTruthy saQ, rfl⟩
  | some tok =>
    rw [hct] at hok
    dsimp only at hok
    cases hl : mapGet st.tokens tok with
    | none =>
      rw [hl] at hok
      dsimp only at hok
      injection hok with h1 h2
      cases h1
    | some info =>
      rw [hl] at hok
      dsimp only at hok
      rw [paginateRest_eq] at hok
      split at hok <;> injection hok with h1 h2 <;>
        injection h1 with h1 <;> rw [← h1] <;>
        exact ⟨rfl, info.offset, _, rfl⟩

theorem effectiveMaxKeys_le (mkQ : Option String) :
    effectiveMaxKeys mkQ ≤ 1000 := by
  unfold effectiveMaxKeys
  cases strTruthy mkQ with
  | none => dsimp only; omega
  | some s =>
    dsimp only
    cases jsParseInt s with
    | none => dsimp only; omega
    | some q =>
      dsimp only
      split <;> omega

/-- C6 (amended): the effective page size is 1000 when no usable
max-keys value is supplied, is replaced by a parsed request value when
that value is smaller — **including zero and negative values** — and is
never raised above 1000; and whenever the effective page size is
non-negative, at most that many entries are returned in one page.  (A
negative effective page size does not bound the page size from above:
see the counterexample, where `max-keys=-1` returns one entry, because
JS `slice` counts a negative end index from the end of the array.) -/
theorem c6_max_keys_clamping (st : FakeS3) (ft : String)
    (mkQ saQ ctQ : Option String) (L : List Entry) (pr : PageResult)
    (st2 : FakeS3) (hok : paginate st ft mkQ saQ ctQ L = (.ok pr, st2)) :
    pr.maxKeys = effectiveMaxKeys mkQ
    ∧ (strTruthy mkQ = none → pr.maxKeys = 1000)
    ∧ (∀ q v, strTruthy mkQ = some q → jsParseInt q = some v →
        pr.maxKeys = if v < 1000 then v else 1000)
    ∧ pr.maxKeys ≤ 1000
    ∧ (0 ≤ pr.maxKeys → (pr.objects.length : Int) ≤ pr.maxKeys) := by
  obtain ⟨hmk, off, sa, hobj⟩ := paginate_ok_shape st ft mkQ saQ ctQ L pr st2 hok
  refine ⟨hmk, ?_, ?_, ?_, ?_⟩
  · intro hnone
    rw [hmk]
    unfold effectiveMaxKeys
    rw [hnone]
  · intro q v hq hv
    rw [hmk]
    unfold effectiveMaxKeys
    rw [hq]
    dsimp only
    rw [hv]
  · rw [hmk]; exact effectiveMaxKeys_le mkQ
  · intro hpos
    rw [hmk] at hpos
    rw [hobj, hmk]
    exact jsSlice_length_le _ off (effectiveMaxKeys mkQ) hpos

/-- C6 witness: the amended theorem at `max-keys=5`. -/
theorem c6_witness :
    ∃ pr st2,
      paginate ⟨[], [], [], ""⟩ "t" (some "5") none none
          [.obj (sampleObj "a")] = (.ok pr, st2)
      ∧ pr.maxKeys = effectiveMaxKeys (some "5")
      ∧ pr.maxKeys ≤ 1000
      ∧ (0 ≤ pr.maxKeys → (pr.objects.length : Int) ≤ pr.maxKeys) := by
  refine ⟨_, _, rfl, ?_⟩
  have h := c6_max_keys_clamping ⟨[], [], [], ""⟩ "t" (some "5") none none
    [.obj (sampleObj "a")] _ _ rfl
  exact ⟨h.1, h.2.2.2.1, h.2.2.2.2⟩

/-! ## Claim C7: startAfter matching -/

theorem jsFindIndex_eq_none {α : Type} (p : α → Bool) :
    ∀ (l : List α), (∀ x ∈ l, p x = false) → jsFindIndex p l = none := by
  intro l
  induction l with
  | nil => intro _; rfl
  | cons x xs ih =>
    intro h
    rw [jsFindIndex, if_neg (by simp [h x (by simp)]),
      ih (fun y hy => h y (by simp [hy]))]
    rfl

theorem jsFindIndex_append {α : Type} (p : α → Bool) :
    ∀ (pre : List α) (x : α) (post : List α),
      (∀ y ∈ pre, p y = false) → p x = true →
      jsFindIndex p (pre ++ x :: post) = some pre.length := by
  intro pre
  induction pre with
  | nil =>
    intro x post _ hx
    rw [List.nil_append, jsFindIndex, if_pos hx, List.length_nil]
  | cons y ys ih =>
    intro x post hpre hx
    rw [List.cons_append, jsFindIndex, if_neg (by simp [hpre y (by simp)]),
      ih x post (fun z hz => hpre z (by simp [hz])) hx]
    rfl

/-- The startAfter matcher never matches a common-prefix entry, and on
plain entries it tests key equality. -/
theorem entryMatchesKey_false (sa : String) (E : List Entry)
    (h : ∀ o : S3Object, Entry.obj o ∈ E → o.key ≠ sa) :
    ∀ e ∈ E, entryMatchesKey sa e = false := by
  intro e he
  cases e with
  | cpfx s => rfl
  | obj o => exact decide_eq_false (h o he)

theorem applyStartAfter_no_match (sa : String) (E : List Entry)
    (h : ∀ o : S3Object, Entry.obj o ∈ E → o.key ≠ sa) :
    applyStartAfter (some sa) E = E := by
  unfold applyStartAfter
  dsimp only
  rw [jsFindIndex_eq_none (entryMatchesKey sa) E (entryMatchesKey_false sa E h)]

theorem applyStartAfter_match (sa : String) (pre post : List Entry)
    (o : S3Object)
    (hpre : ∀ o' : S3Object, Entry.obj o' ∈ pre → o'.key ≠ sa)
    (ho : o.key = sa) :
    applyStartAfter (some sa) (pre ++ .obj o :: post) = post := by
  unfold applyStartAfter
  dsimp only
  rw [jsFindIndex_append (entryMatchesKey sa) pre (.obj o) post
    (entryMatchesKey_false sa pre hpre) (decide_eq_true ho)]
  show (pre ++ Entry.obj o :: post).drop (pre.length + 1) = post
  rw [show pre ++ Entry.obj o :: post = (pre ++ [Entry.obj o]) ++ post by simp,
    List.drop_left' (by simp)]

theorem paginateRest_objects (st : FakeS3) (ft : String) (mk off : Int)
    (sa pt : Option String) (L : List Entry) :
    ∃ pr st2, paginateRest st ft mk off sa pt L = (.ok pr, st2)
      ∧ pr.objects = jsSlice (applyStartAfter sa L) off (off + mk) := by
  rw [paginateRest_eq]
  split
  · exact ⟨_, _, rfl, rfl⟩
  · exact ⟨_, _, rfl, rfl⟩

/-- C7: `startAfter` is matched against the transformed entry sequence
and skips common-prefix entries: (i) when no plain entry's key equals
`startAfter` (in particular when the key was folded into a common
prefix), nothing is dropped and the page is sliced from the full
sequence; (ii) when a plain entry matches, that entry and everything
before it are dropped; (iii) with a continuation token carrying a
numeric offset (and no recorded startAfter), the drop happens first and
the token's offset is applied to the already-shortened sequence. -/
theorem c7_start_after (st : FakeS3) (ft sa : String) (mkQ : Option String)
    (E : List Entry) (hsa : sa ≠ "") :
    ((∀ o : S3Object, Entry.obj o ∈ E → o.key ≠ sa) →
      ∃ pr st2, paginate st ft mkQ (some sa) none E = (.ok pr, st2)
        ∧ pr.objects = jsSlice E 0 (0 + effectiveMaxKeys mkQ))
    ∧ (∀ pre post (o : S3Object),
        E = pre ++ .obj o :: post →
        (∀ o' : S3Object, Entry.obj o' ∈ pre → o'.key ≠ sa) → o.key = sa →
        ∃ pr st2, paginate st ft mkQ (some sa) none E = (.ok pr, st2)
          ∧ pr.objects = jsSlice post 0 (0 + effectiveMaxKeys mkQ))
    ∧ (∀ (tok : String) (off : Int) pre post (o : S3Object),
        tok ≠ "" →
        mapGet st.tokens tok = some ⟨off, none⟩ →
        E = pre ++ .obj o :: post →
        (∀ o' : S3Object, Entry.obj o' ∈ pre → o'.key ≠ sa) → o.key = sa →
        ∃ pr st2, paginate st ft mkQ (some sa) (some tok) E = (.ok pr, st2)
          ∧ pr.objects = jsSlice post off (off + effectiveMaxKeys mkQ)) := by
  refine ⟨?_, ?_, ?_⟩
  · intro hnone
    rw [paginate_none_tok, strTruthy_some_ne sa hsa]
    obtain ⟨pr, st2, heq, hobj⟩ :=
      paginateRest_objects st ft (effectiveMaxKeys mkQ) 0 (some sa) none E
    rw [applyStartAfter_no_match sa E hnone] at hobj
    exact ⟨pr, st2, heq, hobj⟩
  · intro pre post o hE hpre ho
    subst hE
    rw [paginate_none_tok, strTruthy_some_ne sa hsa]
    obtain ⟨pr, st2, heq, hobj⟩ :=
      paginateRest_objects st ft (effectiveMaxKeys mkQ) 0 (some sa) none
        (pre ++ .obj o :: post)
    rw [applyStartAfter_match sa pre post o hpre ho] at hobj
    exact ⟨pr, st2, heq, hobj⟩
  · intro tok off pre post o htok hlook hE hpre ho
    subst hE
    rw [paginate_found_tok st ft mkQ (some sa) tok ⟨off, none⟩ _ htok hlook]
    have hres : (match strTruthy (TokenInfo.mk off none).startAfter with
        | some s => some s
        | none => strTruthy (some sa)) = some sa := by
      dsimp only
      rw [strTruthy_some_ne sa hsa]
      rfl
    rw [hres]
    obtain ⟨pr, st2, heq, hobj⟩ :=
      paginateRest_objects { st with tokens := mapDelete st.tokens tok } ft
        (effectiveMaxKeys mkQ) off (some sa) (some tok)
        (pre ++ .obj o :: post)
    rw [applyStartAfter_match sa pre post o hpre ho] at hobj
    exact ⟨pr, st2, heq, hobj⟩

/-- C7 witness: with entries `[cpfx "a/", obj "a/b", obj "c"]` and
`start-after=a/x` (a key folded into the `a/` group) nothing is
dropped; with `start-after=c` the matching plain entry and everything
before it are dropped. -/
theorem c7_witness :
    ((∀ o : S3Object,
        Entry.obj o ∈ [Entry.cpfx "a/", .obj (sampleObj "a/b"),
          .obj (sampleObj "c")] → o.key ≠ "a/x")
      ∧ ∃ pr st2,
          paginate ⟨[], [], [], ""⟩ "t" none (some "a/x") none
              [Entry.cpfx "a/", .obj (sampleObj "a/b"), .obj (sampleObj "c")]
            = (.ok pr, st2)
          ∧ pr.objects = jsSlice [Entry.cpfx "a/", .obj (sampleObj "a/b"),
              .obj (sampleObj "c")] 0 (0 + effectiveMaxKeys none))
    ∧ ∃ pr st2,
        paginate ⟨[], [], [], ""⟩ "t" none (some "c") none
            [Entry.cpfx "a/", .obj (sampleObj "a/b"), .obj (sampleObj "c")]
          = (.ok pr, st2)
        ∧ pr.objects = jsSlice ([] : List Entry) 0 (0 + effectiveMaxKeys none) := by
  have hE1 : ∀ o : S3Object,
      Entry.obj o ∈ [Entry.cpfx "a/", .obj (sampleObj "a/b"),
        .obj (sampleObj "c")] → o.key ≠ "a/x" := by
    intro o ho
    rcases List.mem_cons.mp ho with h | ho
    · injection h
    rcases List.mem_cons.mp ho with h | ho
    · injection h with h'
      subst h'
      decide
    rcases List.mem_cons.mp ho with h | ho
    · injection h with h'
      subst h'
      decide
    · simp at ho
  have hE2 : ∀ o' : S3Object,
      Entry.obj o' ∈ [Entry.cpfx "a/", .obj (sampleObj "a/b")] →
        o'.key ≠ "c" := by
    intro o ho
    rcases List.mem_cons.mp ho with h | ho
    · injection h
    rcases List.mem_cons.mp ho with h | ho
    · injection h with h'
      subst h'
      decide
    · simp at ho
  constructor
  · refine ⟨hE1, ?_⟩
    exact (c7_start_after ⟨[], [], [], ""⟩ "t" "a/x" none
      [Entry.cpfx "a/", .obj (sampleObj "a/b"), .obj (sampleObj "c")]
      (by decide)).1 hE1
  · exact (c7_start_after ⟨[], [], [], ""⟩ "t" "c" none
      [Entry.cpfx "a/", .obj (sampleObj "a/b"), .obj (sampleObj "c")]
      (by decide)).2.1 [Entry.cpfx "a/", .obj (sampleObj "a/b")] []
      (sampleObj "c") rfl hE2 (by decide)

/-! ## Claim C8: upload validation before mutation -/

/-- C8: the upload handler mutates nothing on any failure — every error
path returns the state unchanged (URL-shape check, copy-source check,
multipart upload-id check and bucket lookup all precede the write) —
and an upload against a bucket name absent from the default profile
fails with code `NoSuchBucket` and message `The specified bucket does
not exist`, leaving the state (and hence every bucket's contents)
unchanged: the bucket is never created implicitly. -/
theorem c8_upload_validation (hash : String → String) (now : String)
    (st : FakeS3) (req : PutRequest) :
    (∀ e st2, handlePutObject hash now st req = (.error e, st2) → st2 = st)
    ∧ (¬((jsSplit req.path "/").length < 3
          ∨ (jsSplit req.path "/").head? ≠ some "") →
       strTruthy req.copySource = none →
       strTruthy req.uploadId = none →
       (mapGet st.profiles "default").bind
           (fun m => mapGet m ((jsSplit req.path "/").getD 1 "")) = none →
       handlePutObject hash now st req
         = (.error ⟨"The specified bucket does not exist", some "NoSuchBucket",
                    some ((jsSplit req.path "/").getD 1 "")⟩, st)) := by
  constructor
  · intro e st2 h
    unfold handlePutObject at h
    dsimp only at h
    repeat' split at h
    all_goals first
      | (injection h with h1 h2; exact h2.symm)
      | (injection h with h1 h2; injection h1)
  · intro hurl hcopy hupload hlookup
    unfold handlePutObject
    rw [if_neg hurl, if_neg (by rw [hcopy]; simp),
      if_neg (by rw [hupload]; simp)]
    cases hdm : mapGet st.profiles "default" with
    | none => rfl
    | some dm =>
      have hb : mapGet dm ((jsSplit req.path "/").getD 1 "") = none := by
        simpa [hdm] using hlookup
      simp only [hb]

/-- C8 witness: uploading to an unconfigured bucket errors with the
fixed message and leaves the (empty-profile) state unchanged. -/
theorem c8_witness :
    handlePutObject (fun _ => "h") "now" ⟨[("default", [])], [], [], ""⟩
        ⟨"/nope/k", none, none, "body"⟩
      = (.error ⟨"The specified bucket does not exist", some "NoSuchBucket",
                 some "nope"⟩, ⟨[("default", [])], [], [], ""⟩) := by
  have h := (c8_upload_validation (fun _ => "h") "now"
      ⟨[("default", [])], [], [], ""⟩ ⟨"/nope/k", none, none, "body"⟩).2
    (by decide) rfl rfl (by decide)
  exact h

/-! ## Claim C9: getFiles and waitForFiles see only prefixed keys -/

/-- The full default listing, reduced to the first 1000 sorted
objects. -/
theorem handle_nodelim_contents (st : FakeS3) (ft b : String)
    (dm : List (String × List S3Object)) (OS : List S3Object)
    (hpath : jsSplit ("/" ++ b) "/" = ["", b])
    (hdm : mapGet st.profiles "default" = some dm)
    (hOS : mapGet dm b = some OS) :
    ∃ r st2,
      handleGetObjectsV2 st ft ⟨"/" ++ b, none, none, none, none, none, none⟩
        = (.ok r, st2) ∧ r.contents = (sortByKey OS).take 1000 := by
  rw [handleGetObjectsV2_nodelim st ft b none none dm OS hpath hdm hOS,
    paginate_none_tok,
    show effectiveMaxKeys none = ((1000 : Nat) : Int) from rfl,
    show strTruthy (none : Option String) = none from rfl,
    show (0 : Int) = ((0 : Nat) : Int) from rfl, paginateRest_nat]
  by_cases hc : (List.map Entry.obj (sortByKey OS)).length > 0 + 1000
  · rw [if_pos hc]
    refine ⟨_, _, rfl, ?_⟩
    show entriesContents (List.take 1000 (List.map Entry.obj (sortByKey OS)))
      = (sortByKey OS).take 1000
    rw [← List.map_take, entriesContents_map_obj]
  · rw [if_neg hc]
    refine ⟨_, _, rfl, ?_⟩
    show entriesContents (List.take 1000 (List.map Entry.obj (sortByKey OS)))
      = (sortByKey OS).take 1000
    rw [← List.map_take, entriesContents_map_obj]

/-- C9: `getFiles` (and therefore `waitForFiles`, which returns a
`getFiles` result) returns and counts only objects whose key starts
with the instance's configured prefix: an object whose key lacks the
prefix is not in the `getFiles` list even though the same object
appears in the HTTP listing of the same bucket. -/
theorem c9_helpers_see_only_prefixed (st : FakeS3) (ft b : String)
    (dm : List (String × List S3Object)) (OS : List S3Object)
    (obj : S3Object)
    (hpath : jsSplit ("/" ++ b) "/" = ["", b])
    (hdm : mapGet st.profiles "default" = some dm)
    (hOS : mapGet dm b = some OS)
    (hfind : findBucket st b = some OS)
    (hmem : obj ∈ OS)
    (hpfx : strStartsWith obj.key st.pfx = false)
    (hlen : OS.length ≤ 1000) :
    obj ∉ getFiles st b
    ∧ (∀ o ∈ getFiles st b, strStartsWith o.key st.pfx = true)
    ∧ (∀ fuel n r, waitForFiles st b n fuel = some r → r = getFiles st b)
    ∧ ∃ r st2,
        handleGetObjectsV2 st ft ⟨"/" ++ b, none, none, none, none, none, none⟩
          = (.ok r, st2) ∧ obj ∈ r.contents := by
  refine ⟨?_, ?_, ?_, ?_⟩
  · intro hin
    unfold getFiles at hin
    rw [hfind] at hin
    exact absurd (List.mem_filter.mp hin).2 (by simp [hpfx])
  · intro o ho
    unfold getFiles at ho
    rw [hfind] at ho
    exact (List.mem_filter.mp ho).2
  · intro fuel
    induction fuel with
    | zero => intro n r h; exact Option.noConfusion h
    | succ fuel ih =>
      intro n r h
      rw [waitForFiles] at h
      by_cases hc : (getFiles st b).length = n
      · rw [if_pos hc] at h
        injection h with h'
        exact h'.symm
      · rw [if_neg hc] at h
        exact ih n r h
  · obtain ⟨r, st2, heq, hcont⟩ :=
      handle_nodelim_contents st ft b dm OS hpath hdm hOS
    refine ⟨r, st2, heq, ?_⟩
    rw [hcont, List.take_of_length_le
      (by rw [(sortByKey_perm OS).length_eq]; exact hlen)]
    exact ((sortByKey_perm OS).mem_iff).mpr hmem

/-- C9 witness: with configured prefix `foo/`, an uploaded object at
key `x` is invisible to `getFiles` yet present in the HTTP listing. -/
theorem c9_witness :
    sampleObj "x" ∉ getFiles
        ⟨[("default", [("b", [sampleObj "x"])])], [], [], "foo/"⟩ "b"
    ∧ ∃ r st2,
        handleGetObjectsV2
            ⟨[("default", [("b", [sampleObj "x"])])], [], [], "foo/"⟩ "t"
            ⟨"/" ++ "b", none, none, none, none, none, none⟩
          = (.ok r, st2) ∧ sampleObj "x" ∈ r.contents := by
  have h := c9_helpers_see_only_prefixed
    ⟨[("default", [("b", [sampleObj "x"])])], [], [], "foo/"⟩ "t" "b"
    [("b", [sampleObj "x"])] [sampleObj "x"] (sampleObj "x")
    (by decide) (by decide) (by decide) (by decide) (by decide)
    (by decide) (by decide)
  exact ⟨h.1, h.2.2.2⟩

/-! ## Claim C10: waitForFiles succeeds only on exact equality -/

/-- C10: `waitForFiles` succeeds only when the prefix-filtered object
count equals `count` exactly (and then returns the `getFiles` list);
when the count is already greater than `count` (the state never
reaching equality), every poll fails and the call returns the `none`
sentinel once the deadline fuel is exhausted; and `getFiles` on a
bucket name found in no profile returns the empty list rather than an
error. -/
theorem c10_waitForFiles_exact (st : FakeS3) (b : String) (n : Nat) :
    (∀ fuel r, waitForFiles st b n fuel = some r →
        (getFiles st b).length = n ∧ r = getFiles st b)
    ∧ ((getFiles st b).length > n →
        ∀ fuel, waitForFiles st b n fuel = none)
    ∧ (findBucket st b = none → getFiles st b = []) := by
  refine ⟨?_, ?_, ?_⟩
  · intro fuel
    induction fuel with
    | zero => intro r h; exact Option.noConfusion h
    | succ fuel ih =>
      intro r h
      rw [waitForFiles] at h
      by_cases hc : (getFiles st b).length = n
      · rw [if_pos hc] at h
        injection h with h'
        exact ⟨hc, h'.symm⟩
      · rw [if_neg hc] at h
        exact ih r h
  · intro hgt fuel
    induction fuel with
    | zero => rfl
    | succ fuel ih =>
      rw [waitForFiles, if_neg (by omega), ih]
  · intro hnone
    unfold getFiles
    rw [hnone]

/-- C10 witness: a bucket already holding one (prefix-matching) object
never satisfies `count = 0`, so the wait returns the sentinel; and an
unknown bucket name yields an empty list. -/
theorem c10_witness :
    waitForFiles ⟨[("default", [("b", [sampleObj "k"])])], [], [], ""⟩
        "b" 0 5 = none
    ∧ getFiles ⟨[("default", [("b", [sampleObj "k"])])], [], [], ""⟩ "nope"
        = [] := by
  constructor
  · exact (c10_waitForFiles_exact
      ⟨[("default", [("b", [sampleObj "k"])])], [], [], ""⟩ "b" 0).2.1
      (by decide) 5
  · exact (c10_waitForFiles_exact
      ⟨[("default", [("b", [sampleObj "k"])])], [], [], ""⟩ "nope" 0).2.2
      (by decide)
